import Mathlib

/-!
# Verification of `src/utils/backend/scrapers/linkedin_scraper.py`

A shallow embedding of the LinkedIn job-description scraper module.
Python strings are modelled as `List Char` (the module only manipulates
ASCII text; Python's `\d`, `str.lower()` and `str.strip()` are modelled
by `Char.isDigit`, `Char.toLower` and trimming `Char.isWhitespace`,
which agree on the ASCII fragment the module works with).  Parsed HTML
is modelled as an abstract node tree (`HNode`); the network is modelled
as an explicit `HttpResult` oracle describing what the single
`requests.get` call of a fetch does; logging is modelled by the list of
emitted severity levels (message text elided).
-/

namespace LinkedinScraper

/-- A Python string, modelled as its character sequence. -/
abbrev Str := List Char

/-- Embed a Lean string literal as a `Str`. -/
def lit (s : String) : Str := s.data

/-- Python `str.lower()` (ASCII). -/
def pyLower (s : Str) : Str := s.map Char.toLower

/-- Python `str.strip()`: drop leading and trailing whitespace. -/
def pyStrip (s : Str) : Str :=
  ((s.dropWhile Char.isWhitespace).reverse.dropWhile Char.isWhitespace).reverse

/-- Split a string at every character satisfying `p`, keeping empty
pieces — the semantics of Python `str.split('\n')` (for `p = (· = '\n')`)
before any filtering.  Always returns at least one piece. -/
def splitP (p : Char → Bool) : Str → List Str
  | [] => [[]]
  | c :: rest =>
    if p c then [] :: splitP p rest
    else
      match splitP p rest with
      | [] => [[c]]
      | t :: ts => (c :: t) :: ts

/-- `sep.join(pieces)` for a one-character separator. -/
def joinSep (sep : Char) : List Str → Str
  | [] => []
  | [l] => l
  | l :: l' :: ls => l ++ sep :: joinSep sep (l' :: ls)

/-- Python `line.split()`: whitespace-delimited tokens, empties dropped. -/
def pyWords (l : Str) : List Str :=
  (splitP Char.isWhitespace l).filter (· ≠ [])

/-- `' '.join(line.split())` — collapse whitespace runs inside one line
(linkedin_scraper.py line 113). -/
def collapseLine (l : Str) : Str := joinSep ' ' (pyWords l)

/-- Whitespace normalisation of extracted text
(linkedin_scraper.py lines 112–116): split on newlines, collapse each
line's whitespace, drop lines that became empty, rejoin and strip. -/
def normalizeText (t : Str) : Str :=
  pyStrip (joinSep '\n' (((splitP (· = '\n') t).map collapseLine).filter (· ≠ [])))

/-- A parsed HTML fragment node, the abstraction of a BeautifulSoup
tree.  `elem tag classes children` is an element; `br`, `li` and `p`
are identified by their tag name. -/
inductive HNode where
  | text : Str → HNode
  | elem : Str → List Str → List HNode → HNode
deriving Repr

mutual

/-- Text extraction after the three mutation passes of
`clean_html_text` (lines 96–109): every `<br>` is replaced by a
newline, every `<li>` gets a `"• "` inserted before it and a newline
after it, every `<p>` gets a newline after it, then `get_text()`
concatenates all text nodes in document order.  The three `find_all`
passes insert the markers next to each matching element inside its
parent, which is exactly this recursive concatenation. -/
def nodeText : HNode → Str
  | .text s => s
  | .elem tag _ children =>
    if tag = lit "br" then lit "\n"
    else if tag = lit "li" then lit "• " ++ nodesText children ++ lit "\n"
    else if tag = lit "p" then nodesText children ++ lit "\n"
    else nodesText children

/-- `get_text()` over a list of sibling nodes. -/
def nodesText : List HNode → Str
  | [] => []
  | n :: ns => nodeText n ++ nodesText ns

end

/-- `clean_html_text` (lines 77–116) on a parsed fragment.  The Python
function takes the raw HTML string; a fragment string parses to a list
of top-level nodes, the empty string to the empty list (line 90's
falsy check). -/
def clean_html_text (nodes : List HNode) : Str :=
  match nodes with
  | [] => []
  | _ => normalizeText (nodesText nodes)

/-! ## Identifier extraction (`extract_linkedin_job_id`, lines 42–74) -/

/-- Attempt of the regex `<pat>(\d+)` at the start of `s`: the literal
must be a prefix and at least one digit must follow; the capture is the
maximal (greedy) digit run. -/
def matchAt (pat : Str) (s : Str) : Option Str :=
  if pat.isPrefixOf s then
    let ds := (s.drop pat.length).takeWhile Char.isDigit
    if ds = [] then none else some ds
  else none

/-- `re.search` for the pattern `<pat>(\d+)`: try every start position
left to right, return the first (leftmost) match's capture. -/
def searchLit (pat : Str) : Str → Option Str
  | [] => matchAt pat []
  | c :: rest =>
    match matchAt pat (c :: rest) with
    | some m => some m
    | none => searchLit pat rest

/-- The literal parts of the four patterns of lines 62–67, in source
order. -/
def linkedinPatterns : List Str :=
  [lit "/jobs/view/", lit "/jobs/", lit "currentJobId=", lit "jobId="]

/-- The `for pattern in patterns` loop of lines 69–72: first pattern
that matches wins. -/
def tryPatterns : List Str → Str → Option Str
  | [], _ => none
  | p :: ps, url =>
    match searchLit p url with
    | some m => some m
    | none => tryPatterns ps url

/-- `extract_linkedin_job_id` (lines 42–74). -/
def extract_linkedin_job_id (job_url : Str) : Option Str :=
  if job_url = [] then none
  else tryPatterns linkedinPatterns job_url

/-! ## Description fetch (`fetch_linkedin_description`, lines 119–187) -/

mutual

/-- BeautifulSoup `find(class_=cls)` over one node: document-order
(preorder) search for the first element whose class list contains
`cls`. -/
def findClassNode (cls : Str) : HNode → Option HNode
  | .text _ => none
  | .elem tag classes children =>
    if cls ∈ classes then some (.elem tag classes children)
    else findClassList cls children

/-- BeautifulSoup `find(class_=cls)` over a list of sibling nodes. -/
def findClassList (cls : Str) : List HNode → Option HNode
  | [] => none
  | n :: ns =>
    match findClassNode cls n with
    | some r => some r
    | none => findClassList cls ns

end

/-- Severity of an emitted log record (message text elided). -/
inductive LogLevel where
  | debug | info | warning | error
deriving Repr, DecidableEq

/-- Outcome of the single `requests.get` call of a fetch: either a
response with a status code and a parsed HTML body, or one of the three
exception classes caught at lines 179–187. -/
inductive HttpResult where
  | response : Nat → List HNode → HttpResult
  | timeoutExn : HttpResult
  | requestExn : HttpResult
  | otherExn : HttpResult

/-- The primary description container class of line 159. -/
def primaryDescClass : Str := lit "show-more-less-html__markup"

/-- The fallback container classes of lines 165–169, in source order. -/
def fallbackClasses : List Str :=
  [lit "description__text", lit "job-description", lit "description"]

/-- The fallback loop of lines 171–174: first fallback class that
matches. -/
def fallbackFind (body : List HNode) : List Str → Option HNode
  | [] => none
  | c :: cs =>
    match findClassList c body with
    | some n => some n
    | none => fallbackFind body cs

/-- The 200-branch of the fetch (lines 156–177): look for the primary
container, then the fallbacks; normalize the first hit. -/
def descriptionFromBody (body : List HNode) : Option Str :=
  match findClassList primaryDescClass body with
  | some n => some (clean_html_text [n])
  | none =>
    match fallbackFind body fallbackClasses with
    | some n => some (clean_html_text [n])
    | none => none

/-- `fetch_linkedin_description` (lines 119–187), with the network
modelled by an explicit `HttpResult` oracle.  Returns the Python return
value paired with the levels of the log records it emits.  Totality of
this function models the fact that the `try/except` of lines 136–187
converts every exception into a `None` return.  `str(description_div)`
followed by re-parsing inside `clean_html_text` yields back the found
node, hence `clean_html_text [n]`. -/
def fetch_linkedin_description (job_id : Str) (http : HttpResult) :
    Option Str × List LogLevel :=
  if job_id = [] then (none, [])
  else
    match http with
    | .timeoutExn => (none, [.warning])
    | .requestExn => (none, [.error])
    | .otherExn => (none, [.error])
    | .response status body =>
      if status = 429 then (none, [.warning])
      else if status = 404 then (none, [.debug])
      else if status ≠ 200 then (none, [.warning])
      else
        match findClassList primaryDescClass body with
        | some n => (some (clean_html_text [n]), [])
        | none =>
          match fallbackFind body fallbackClasses with
          | some n => (some (clean_html_text [n]), [])
          | none => (none, [.debug])

/-! ## Batch enrichment (`fetch_descriptions_for_jobs`, lines 190–255) -/

/-- A posting record: a Python dict.  The module reads exactly the keys
`site`, `description`, `link` and `job_url` (always via `dict.get` with
default `''`, so an absent key and a stored falsy value behave
identically — both are `none` here); `extra` carries every other key
untouched by the module, so that frame properties can be stated. -/
structure Job where
  site : Option Str := none
  description : Option Str := none
  link : Option Str := none
  job_url : Option Str := none
  extra : List (Str × Str) := []
deriving Repr, DecidableEq

/-- `job.get('link', '') or job.get('job_url', '')` (line 214): the
first truthy (non-empty) of the two. -/
def jobUrlOf (j : Job) : Str :=
  if j.link.getD [] ≠ [] then j.link.getD [] else j.job_url.getD []

/-- The identifier the selection pass derives from a record
(lines 214–215). -/
def jobIdOf (j : Job) : Option Str := extract_linkedin_job_id (jobUrlOf j)

/-- The three targeting conditions of lines 210–216 as one predicate:
`site` equals `"linkedin"` case-insensitively, the existing description
is empty or whitespace-only, and a job id can be extracted from the URL
field. -/
def targeted (j : Job) : Bool :=
  decide (pyLower (j.site.getD []) = lit "linkedin") &&
  ((j.description.getD []).isEmpty || (pyStrip (j.description.getD [])).isEmpty) &&
  (jobIdOf j).isSome

/-- The selection pass of lines 208–217: walk the records with their
indices and collect `(index, job_id)` pairs for records that qualify. -/
def selectJobsFrom : Nat → List Job → List (Nat × Str)
  | _, [] => []
  | i, job :: rest =>
    if pyLower (job.site.getD []) = lit "linkedin" then
      if (job.description.getD []).isEmpty
          || (pyStrip (job.description.getD [])).isEmpty then
        match extract_linkedin_job_id (jobUrlOf job) with
        | some id => (i, id) :: selectJobsFrom (i + 1) rest
        | none => selectJobsFrom (i + 1) rest
      else selectJobsFrom (i + 1) rest
    else selectJobsFrom (i + 1) rest

/-- Observable outcome of a batch run: the (mutated) record list plus
the traces of the effects the loop performs — the job ids passed to the
fetcher in order, the arguments passed to the progress callback in
order, the number of `time.sleep` calls, the two counters, and the
levels of emitted log records. -/
structure BatchResult where
  jobs : List Job
  fetchCalls : List Str
  progressCalls : List (Nat × Nat)
  sleepCount : Nat
  fetchedCount : Nat
  failedCount : Nat
  log : List LogLevel
deriving Repr, DecidableEq

/-- `jobs[job_index]['description'] = description` (line 240). -/
def setDescription : List Job → Nat → Str → List Job
  | [], _, _ => []
  | j :: rest, 0, d => { j with description := some d } :: rest
  | j :: rest, n + 1, d => j :: setDescription rest n d

/-- One iteration of the fetch loop (lines 229–248) on the selected
pair `(jobIndex, jobId)` at loop position `idx` (0-based): report
progress to the callback when present (a raising callback only adds a
debug log record, lines 230–234); call the fetcher (line 237); on a
truthy result overwrite the record's description and count it fetched
(lines 239–242), otherwise count it failed (line 244); sleep unless
this is the last selected item (lines 247–248). -/
def batchStep (fetcher : Str → Option Str) (cb : Option (Nat → Nat → Bool))
    (total : Nat) (jobIndex : Nat) (jobId : Str) (idx : Nat)
    (st : BatchResult) : BatchResult :=
  let st1 :=
    match cb with
    | none => st
    | some raises =>
      let st' := { st with progressCalls := st.progressCalls ++ [(idx + 1, total)] }
      if raises (idx + 1) total then { st' with log := st'.log ++ [LogLevel.debug] }
      else st'
  let st2 := { st1 with fetchCalls := st1.fetchCalls ++ [jobId] }
  let st3 :=
    match fetcher jobId with
    | some d =>
      if d ≠ [] then
        { st2 with
            jobs := setDescription st2.jobs jobIndex d
            fetchedCount := st2.fetchedCount + 1
            log := st2.log ++ [LogLevel.debug] }
      else { st2 with failedCount := st2.failedCount + 1 }
    | none => { st2 with failedCount := st2.failedCount + 1 }
  if idx < total - 1 then { st3 with sleepCount := st3.sleepCount + 1 } else st3

/-- The fetch loop of lines 228–248.  `fetcher` is the oracle standing
for `fetch_linkedin_description`'s network-dependent return value on a
given job id; a callback is modelled by whether it raises on given
arguments (`true` = raises). -/
def batchLoop (fetcher : Str → Option Str) (cb : Option (Nat → Nat → Bool))
    (total : Nat) : List (Nat × Str) → Nat → BatchResult → BatchResult
  | [], _, st => st
  | (jobIndex, jobId) :: rest, idx, st =>
    batchLoop fetcher cb total rest (idx + 1)
      (batchStep fetcher cb total jobIndex jobId idx st)

/-- `fetch_descriptions_for_jobs` (lines 190–255).  The Python
`if description:` of line 239 is truthy only for a non-`None`,
non-empty string, hence the `d ≠ []` test in `batchLoop`; the `info`
log entries are the summary lines 220/223 and 250. -/
def fetch_descriptions_for_jobs (jobs : List Job)
    (cb : Option (Nat → Nat → Bool)) (fetcher : Str → Option Str) : BatchResult :=
  let sel := selectJobsFrom 0 jobs
  match sel with
  | [] =>
    { jobs := jobs, fetchCalls := [], progressCalls := [], sleepCount := 0,
      fetchedCount := 0, failedCount := 0, log := [.info] }
  | _ =>
    let st0 : BatchResult :=
      { jobs := jobs, fetchCalls := [], progressCalls := [], sleepCount := 0,
        fetchedCount := 0, failedCount := 0, log := [.info] }
    let r := batchLoop fetcher cb sel.length sel 0 st0
    { r with log := r.log ++ [.info] }

/-! ## Supporting lemmas -/

/-- Searching a nonempty pattern in the empty string finds nothing. -/
lemma searchLit_nil (pat : Str) (h : pat ≠ []) : searchLit pat [] = none := by
  cases pat with
  | nil => exact absurd rfl h
  | cons c cs => simp [searchLit, matchAt, List.isPrefixOf]

/-- The cumulative effect of the loop on the record list: for each
selected `(index, id)` pair in order, overwrite the description at
`index` when the fetcher returns a non-empty text for `id`. -/
def applySel (fetcher : Str → Option Str) : List (Nat × Str) → List Job → List Job
  | [], js => js
  | (i, id) :: rest, js =>
    applySel fetcher rest
      (match fetcher id with
       | some d => if d ≠ [] then setDescription js i d else js
       | none => js)

/-- Number of selected items whose fetch outcome is falsy
(`None` or the empty string) under a fetch oracle. -/
def countFailed (f : Str → Option Str) (sel : List (Nat × Str)) : Nat :=
  sel.countP (fun p => match f p.2 with | some d => decide (d = []) | none => true)

/-- Number of selected items whose fetch outcome is a non-empty text. -/
def countFetched (f : Str → Option Str) (sel : List (Nat × Str)) : Nat :=
  sel.countP (fun p => match f p.2 with | some d => decide (d ≠ []) | none => false)

/-- Agreement of two records on every field except `description`. -/
def SameFrame (j j' : Job) : Prop :=
  j'.site = j.site ∧ j'.link = j.link ∧ j'.job_url = j.job_url ∧ j'.extra = j.extra

lemma setDescription_get?_ne (js : List Job) (d : Str) :
    ∀ k i, k ≠ i → (setDescription js i d).get? k = js.get? k := by
  induction js with
  | nil => intro k i _; simp [setDescription]
  | cons j rest ih =>
    intro k i hk
    cases i with
    | zero =>
      cases k with
      | zero => exact absurd rfl hk
      | succ k' => simp [setDescription]
    | succ i' =>
      cases k with
      | zero => simp [setDescription]
      | succ k' => simpa [setDescription] using ih k' i' (by omega)

lemma setDescription_frame (js : List Job) (d : Str) :
    ∀ k i j, js.get? k = some j →
      ∃ j', (setDescription js i d).get? k = some j' ∧ SameFrame j j' := by
  induction js with
  | nil => intro k i j h; simp at h
  | cons a rest ih =>
    intro k i j h
    cases i with
    | zero =>
      cases k with
      | zero =>
        simp at h
        exact ⟨{ a with description := some d }, by simp [setDescription], by
          simp [SameFrame, ← h]⟩
      | succ k' => exact ⟨j, by simpa [setDescription] using h, by simp [SameFrame]⟩
    | succ i' =>
      cases k with
      | zero => exact ⟨j, by simpa [setDescription] using h, by simp [SameFrame]⟩
      | succ k' => simpa [setDescription] using ih k' i' j (by simpa using h)

lemma applySel_get?_not_mem (f : Str → Option Str) :
    ∀ (sel : List (Nat × Str)) (js : List Job) (k : Nat),
      (∀ id, (k, id) ∉ sel) → (applySel f sel js).get? k = js.get? k := by
  intro sel
  induction sel with
  | nil => intro js k _; rfl
  | cons p rest ih =>
    intro js k hk
    obtain ⟨i, id⟩ := p
    have hki : k ≠ i := by
      intro h; exact hk id (by simp [h])
    have hrest : ∀ id, (k, id) ∉ rest := by
      intro id' h'; exact hk id' (List.mem_cons_of_mem _ h')
    simp only [applySel]
    rw [ih _ k hrest]
    cases f id with
    | none => rfl
    | some d =>
      by_cases hd : d = []
      · simp [hd]
      · have h' := setDescription_get?_ne js d k i hki
        simpa [hd] using h'

lemma applySel_frame (f : Str → Option Str) :
    ∀ (sel : List (Nat × Str)) (js : List Job) (k : Nat) (j : Job),
      js.get? k = some j →
      ∃ j', (applySel f sel js).get? k = some j' ∧ SameFrame j j' := by
  intro sel
  induction sel with
  | nil => intro js k j h; exact ⟨j, h, by simp [SameFrame]⟩
  | cons p rest ih =>
    intro js k j h
    obtain ⟨i, id⟩ := p
    simp only [applySel]
    cases hf : f id with
    | none => exact ih js k j h
    | some d =>
      by_cases hd : d = []
      · simpa [hd] using ih js k j h
      · obtain ⟨j1, hj1, hfr1⟩ := setDescription_frame js d k i j h
        obtain ⟨j2, hj2, hfr2⟩ := ih (setDescription js i d) k j1 hj1
        refine ⟨j2, by simpa [hd] using hj2, ?_⟩
        obtain ⟨a1, b1, c1, d1⟩ := hfr1
        obtain ⟨a2, b2, c2, d2⟩ := hfr2
        exact ⟨a2.trans a1, b2.trans b1, c2.trans c1, d2.trans d1⟩

lemma applySel_allfail (f : Str → Option Str)
    (hf : ∀ id, f id = none ∨ f id = some []) :
    ∀ (sel : List (Nat × Str)) (js : List Job), applySel f sel js = js := by
  intro sel
  induction sel with
  | nil => intro js; rfl
  | cons p rest ih =>
    intro js
    obtain ⟨i, id⟩ := p
    simp only [applySel]
    rcases hf id with h | h <;> simp [h, ih]

lemma batchStep_jobs (f : Str → Option Str) (cb : Option (Nat → Nat → Bool))
    (total i : Nat) (id : Str) (idx : Nat) (st : BatchResult) :
    (batchStep f cb total i id idx st).jobs =
      (match f id with
       | some d => if d ≠ [] then setDescription st.jobs i d else st.jobs
       | none => st.jobs) := by
  simp only [batchStep]
  cases cb <;> cases hf : f id <;>
    simp [hf, apply_ite BatchResult.jobs]

lemma batchStep_fetchCalls (f : Str → Option Str) (cb : Option (Nat → Nat → Bool))
    (total i : Nat) (id : Str) (idx : Nat) (st : BatchResult) :
    (batchStep f cb total i id idx st).fetchCalls = st.fetchCalls ++ [id] := by
  simp only [batchStep]
  cases cb <;> cases hf : f id <;>
    simp [hf, apply_ite BatchResult.fetchCalls]

lemma batchStep_sleepCount (f : Str → Option Str) (cb : Option (Nat → Nat → Bool))
    (total i : Nat) (id : Str) (idx : Nat) (st : BatchResult) :
    (batchStep f cb total i id idx st).sleepCount =
      st.sleepCount + (if idx < total - 1 then 1 else 0) := by
  simp only [batchStep]
  cases cb <;> cases hf : f id <;>
    simp [hf, apply_ite BatchResult.sleepCount] <;> split <;> simp

lemma batchStep_fetchedCount (f : Str → Option Str) (cb : Option (Nat → Nat → Bool))
    (total i : Nat) (id : Str) (idx : Nat) (st : BatchResult) :
    (batchStep f cb total i id idx st).fetchedCount =
      st.fetchedCount +
        (match f id with
         | some d => if d ≠ [] then 1 else 0
         | none => 0) := by
  simp only [batchStep]
  cases cb <;> cases hf : f id <;>
    simp [hf, apply_ite BatchResult.fetchedCount] <;> split <;> simp

lemma batchStep_failedCount (f : Str → Option Str) (cb : Option (Nat → Nat → Bool))
    (total i : Nat) (id : Str) (idx : Nat) (st : BatchResult) :
    (batchStep f cb total i id idx st).failedCount =
      st.failedCount +
        (match f id with
         | some d => if d = [] then 1 else 0
         | none => 1) := by
  simp only [batchStep]
  cases cb <;> cases hf : f id <;>
    simp [hf, apply_ite BatchResult.failedCount] <;> split <;> simp_all

lemma batchStep_progressCalls (f : Str → Option Str)
    (cb : Option (Nat → Nat → Bool)) (total i : Nat) (id : Str) (idx : Nat)
    (st : BatchResult) :
    (batchStep f cb total i id idx st).progressCalls =
      (match cb with
       | none => st.progressCalls
       | some _ => st.progressCalls ++ [(idx + 1, total)]) := by
  simp only [batchStep]
  cases cb <;> cases hf : f id <;>
    simp [hf, apply_ite BatchResult.progressCalls]

lemma batchLoop_jobs (f : Str → Option Str) (cb : Option (Nat → Nat → Bool))
    (total : Nat) :
    ∀ (sel : List (Nat × Str)) (idx : Nat) (st : BatchResult),
      (batchLoop f cb total sel idx st).jobs = applySel f sel st.jobs := by
  intro sel
  induction sel with
  | nil => intro idx st; rfl
  | cons p rest ih =>
    intro idx st
    obtain ⟨i, id⟩ := p
    simp only [batchLoop, ih, batchStep_jobs, applySel]

lemma batchLoop_fetchCalls (f : Str → Option Str)
    (cb : Option (Nat → Nat → Bool)) (total : Nat) :
    ∀ (sel : List (Nat × Str)) (idx : Nat) (st : BatchResult),
      (batchLoop f cb total sel idx st).fetchCalls
        = st.fetchCalls ++ sel.map Prod.snd := by
  intro sel
  induction sel with
  | nil => intro idx st; simp [batchLoop]
  | cons p rest ih =>
    intro idx st
    obtain ⟨i, id⟩ := p
    simp [batchLoop, ih, batchStep_fetchCalls]

lemma batchLoop_sleepCount (f : Str → Option Str)
    (cb : Option (Nat → Nat → Bool)) (total : Nat) :
    ∀ (sel : List (Nat × Str)) (idx : Nat) (st : BatchResult),
      (batchLoop f cb total sel idx st).sleepCount
        = st.sleepCount + min sel.length (total - 1 - idx) := by
  intro sel
  induction sel with
  | nil => intro idx st; simp [batchLoop]
  | cons p rest ih =>
    intro idx st
    obtain ⟨i, id⟩ := p
    simp only [batchLoop, ih, batchStep_sleepCount, List.length_cons]
    rcases Nat.lt_or_ge idx (total - 1) with h | h
    · simp only [if_pos h]
      have h1 : total - 1 - idx = (total - 1 - (idx + 1)) + 1 := by omega
      rw [h1]
      rw [Nat.min_def, Nat.min_def]
      split <;> split <;> omega
    · simp only [if_neg (by omega : ¬ idx < total - 1)]
      have h1 : total - 1 - idx = 0 := by omega
      have h2 : total - 1 - (idx + 1) = 0 := by omega
      simp [h1, h2]

lemma batchLoop_fetchedCount (f : Str → Option Str)
    (cb : Option (Nat → Nat → Bool)) (total : Nat) :
    ∀ (sel : List (Nat × Str)) (idx : Nat) (st : BatchResult),
      (batchLoop f cb total sel idx st).fetchedCount
        = st.fetchedCount + countFetched f sel := by
  intro sel
  induction sel with
  | nil => intro idx st; simp [batchLoop, countFetched]
  | cons p rest ih =>
    intro idx st
    obtain ⟨i, id⟩ := p
    simp only [batchLoop, ih, batchStep_fetchedCount]
    cases hf : f id with
    | none => simp [countFetched, List.countP_cons, hf]
    | some d =>
      by_cases hd : d = []
      · simp [countFetched, List.countP_cons, hf, hd]
      · simp [countFetched, List.countP_cons, hf, hd]
        omega

lemma batchLoop_failedCount (f : Str → Option Str)
    (cb : Option (Nat → Nat → Bool)) (total : Nat) :
    ∀ (sel : List (Nat × Str)) (idx : Nat) (st : BatchResult),
      (batchLoop f cb total sel idx st).failedCount
        = st.failedCount + countFailed f sel := by
  intro sel
  induction sel with
  | nil => intro idx st; simp [batchLoop, countFailed]
  | cons p rest ih =>
    intro idx st
    obtain ⟨i, id⟩ := p
    simp only [batchLoop, ih, batchStep_failedCount]
    cases hf : f id with
    | none => simp [countFailed, List.countP_cons, hf]; omega
    | some d =>
      by_cases hd : d = []
      · simp [countFailed, List.countP_cons, hf, hd]
        omega
      · simp [countFailed, List.countP_cons, hf, hd]

lemma batchLoop_progressCalls_none (f : Str → Option Str) (total : Nat) :
    ∀ (sel : List (Nat × Str)) (idx : Nat) (st : BatchResult),
      (batchLoop f none total sel idx st).progressCalls = st.progressCalls := by
  intro sel
  induction sel with
  | nil => intro idx st; rfl
  | cons p rest ih =>
    intro idx st
    obtain ⟨i, id⟩ := p
    simp [batchLoop, ih, batchStep_progressCalls]

lemma batchLoop_progressCalls_some (f : Str → Option Str)
    (raises : Nat → Nat → Bool) (total : Nat) :
    ∀ (sel : List (Nat × Str)) (idx : Nat) (st : BatchResult),
      (batchLoop f (some raises) total sel idx st).progressCalls
        = st.progressCalls
            ++ (List.range sel.length).map (fun k => (idx + 1 + k, total)) := by
  intro sel
  induction sel with
  | nil => intro idx st; simp [batchLoop]
  | cons p rest ih =>
    intro idx st
    obtain ⟨i, id⟩ := p
    simp only [batchLoop, ih, batchStep_progressCalls, List.length_cons]
    have e1 : ((fun k => (idx + 1 + k, total)) ∘ fun x => x + 1)
        = (fun k => (idx + 1 + 1 + k, total)) := by
      funext k
      simp only [Function.comp_apply, Prod.mk.injEq]
      exact ⟨by omega, trivial⟩
    rw [List.range_succ_eq_map, List.map_cons, List.map_map, e1]
    simp

lemma batchLoop_log_raise_fail (total : Nat) :
    ∀ (sel : List (Nat × Str)) (idx : Nat) (st : BatchResult),
      (batchLoop (fun _ => none) (some (fun _ _ => true)) total sel idx st).log
        = st.log ++ List.replicate sel.length LogLevel.debug := by
  intro sel
  induction sel with
  | nil => intro idx st; simp [batchLoop]
  | cons p rest ih =>
    intro idx st
    obtain ⟨i, id⟩ := p
    have hstep : (batchStep (fun _ => none) (some (fun _ _ => true)) total i id
        idx st).log = st.log ++ [LogLevel.debug] := by
      simp [batchStep, apply_ite BatchResult.log]
    simp [batchLoop, ih, hstep, List.replicate_succ]

lemma run_jobs (jobs : List Job) (cb : Option (Nat → Nat → Bool))
    (fetcher : Str → Option Str) :
    (fetch_descriptions_for_jobs jobs cb fetcher).jobs
      = applySel fetcher (selectJobsFrom 0 jobs) jobs := by
  unfold fetch_descriptions_for_jobs
  cases h : selectJobsFrom 0 jobs with
  | nil => simp [h, applySel]
  | cons a rest => simp [h, batchLoop_jobs]

lemma run_fetchCalls (jobs : List Job) (cb : Option (Nat → Nat → Bool))
    (fetcher : Str → Option Str) :
    (fetch_descriptions_for_jobs jobs cb fetcher).fetchCalls
      = (selectJobsFrom 0 jobs).map Prod.snd := by
  unfold fetch_descriptions_for_jobs
  cases h : selectJobsFrom 0 jobs with
  | nil => simp [h]
  | cons a rest => simp [h, batchLoop_fetchCalls]

lemma run_sleepCount (jobs : List Job) (cb : Option (Nat → Nat → Bool))
    (fetcher : Str → Option Str) :
    (fetch_descriptions_for_jobs jobs cb fetcher).sleepCount
      = (selectJobsFrom 0 jobs).length - 1 := by
  unfold fetch_descriptions_for_jobs
  cases h : selectJobsFrom 0 jobs with
  | nil => simp [h]
  | cons a rest =>
    simp only [h, batchLoop_sleepCount]
    rw [Nat.min_def]
    split <;> omega

lemma run_fetchedCount (jobs : List Job) (cb : Option (Nat → Nat → Bool))
    (fetcher : Str → Option Str) :
    (fetch_descriptions_for_jobs jobs cb fetcher).fetchedCount
      = countFetched fetcher (selectJobsFrom 0 jobs) := by
  unfold fetch_descriptions_for_jobs
  cases h : selectJobsFrom 0 jobs with
  | nil => simp [h, countFetched]
  | cons a rest => simp [h, batchLoop_fetchedCount]

lemma run_failedCount (jobs : List Job) (cb : Option (Nat → Nat → Bool))
    (fetcher : Str → Option Str) :
    (fetch_descriptions_for_jobs jobs cb fetcher).failedCount
      = countFailed fetcher (selectJobsFrom 0 jobs) := by
  unfold fetch_descriptions_for_jobs
  cases h : selectJobsFrom 0 jobs with
  | nil => simp [h, countFailed]
  | cons a rest => simp [h, batchLoop_failedCount]

lemma run_progressCalls_some (jobs : List Job) (raises : Nat → Nat → Bool)
    (fetcher : Str → Option Str) :
    (fetch_descriptions_for_jobs jobs (some raises) fetcher).progressCalls
      = (List.range (selectJobsFrom 0 jobs).length).map
          (fun k => (k + 1, (selectJobsFrom 0 jobs).length)) := by
  unfold fetch_descriptions_for_jobs
  cases h : selectJobsFrom 0 jobs with
  | nil => simp [h]
  | cons a rest =>
    simp only [h, batchLoop_progressCalls_some]
    simp only [List.nil_append]
    apply List.map_congr_left
    intro k _
    simp only [Prod.mk.injEq]
    exact ⟨by omega, trivial⟩

lemma run_log_raise_fail (jobs : List Job) (h : selectJobsFrom 0 jobs ≠ []) :
    (fetch_descriptions_for_jobs jobs (some fun _ _ => true) (fun _ => none)).log
      = LogLevel.info ::
          (List.replicate (selectJobsFrom 0 jobs).length LogLevel.debug
            ++ [LogLevel.info]) := by
  unfold fetch_descriptions_for_jobs
  cases hsel : selectJobsFrom 0 jobs with
  | nil => exact absurd hsel h
  | cons a rest => simp [hsel, batchLoop_log_raise_fail]

lemma targeted_isSome {j : Job} (h : targeted j = true) : (jobIdOf j).isSome := by
  simp only [targeted, Bool.and_eq_true] at h
  exact h.2

lemma targeted_false_site {j : Job}
    (hsite : ¬ pyLower (j.site.getD []) = lit "linkedin") :
    targeted j = false := by
  simp [targeted, hsite]

lemma targeted_false_desc {j : Job}
    (hdesc : ((j.description.getD []).isEmpty
      || (pyStrip (j.description.getD [])).isEmpty) = false) :
    targeted j = false := by
  simp [targeted, hdesc]

lemma targeted_false_id {j : Job}
    (hid : extract_linkedin_job_id (jobUrlOf j) = none) :
    targeted j = false := by
  simp [targeted, jobIdOf, hid]

lemma targeted_true {j : Job}
    (hsite : pyLower (j.site.getD []) = lit "linkedin")
    (hdesc : ((j.description.getD []).isEmpty
      || (pyStrip (j.description.getD [])).isEmpty) = true)
    {id : Str} (hid : extract_linkedin_job_id (jobUrlOf j) = some id) :
    targeted j = true := by
  simp [targeted, hsite, hdesc, jobIdOf, hid]

lemma selectJobsFrom_map_snd :
    ∀ (jobs : List Job) (i : Nat),
      (selectJobsFrom i jobs).map Prod.snd
        = (jobs.filter targeted).filterMap jobIdOf := by
  intro jobs
  induction jobs with
  | nil => intro i; rfl
  | cons j rest ih =>
    intro i
    by_cases hsite : pyLower (j.site.getD []) = lit "linkedin"
    · cases hdesc : ((j.description.getD []).isEmpty
          || (pyStrip (j.description.getD [])).isEmpty) with
      | false =>
        simp [selectJobsFrom, hsite, hdesc, ih, List.filter_cons,
          targeted_false_desc hdesc]
      | true =>
        cases hid : extract_linkedin_job_id (jobUrlOf j) with
        | none =>
          simp [selectJobsFrom, hsite, hdesc, hid, ih, List.filter_cons,
            targeted_false_id hid]
        | some id =>
          simp [selectJobsFrom, hsite, hdesc, hid, ih, List.filter_cons,
            targeted_true hsite hdesc hid, List.filterMap_cons, jobIdOf]
    · simp [selectJobsFrom, hsite, ih, List.filter_cons,
        targeted_false_site hsite]

lemma filterMap_jobIdOf_length :
    ∀ (l : List Job), (∀ j ∈ l, targeted j = true) →
      (l.filterMap jobIdOf).length = l.length := by
  intro l
  induction l with
  | nil => intro _; rfl
  | cons j rest ih =>
    intro h
    obtain ⟨id, hid⟩ := Option.isSome_iff_exists.mp
      (targeted_isSome (h j (List.mem_cons_self j rest)))
    simp [List.filterMap_cons, hid,
      ih (fun j' hj' => h j' (List.mem_cons_of_mem _ hj'))]

lemma selectJobsFrom_length (jobs : List Job) (i : Nat) :
    (selectJobsFrom i jobs).length = (jobs.filter targeted).length := by
  have h1 := congrArg List.length (selectJobsFrom_map_snd jobs i)
  rw [List.length_map] at h1
  rw [h1]
  exact filterMap_jobIdOf_length _ (fun j hj => (List.mem_filter.mp hj).2)

lemma selectJobsFrom_mem :
    ∀ (jobs : List Job) (i k : Nat) (id : Str),
      (k, id) ∈ selectJobsFrom i jobs →
        i ≤ k ∧ ∃ j, jobs.get? (k - i) = some j ∧ targeted j = true
          ∧ jobIdOf j = some id := by
  intro jobs
  induction jobs with
  | nil => intro i k id h; simp [selectJobsFrom] at h
  | cons j rest ih =>
    intro i k id h
    have step : (k, id) ∈ selectJobsFrom (i + 1) rest →
        i ≤ k ∧ ∃ j', (j :: rest).get? (k - i) = some j' ∧ targeted j' = true
          ∧ jobIdOf j' = some id := by
      intro h'
      obtain ⟨hik, j', hj', htj', hid'⟩ := ih (i + 1) k id h'
      refine ⟨by omega, j', ?_, htj', hid'⟩
      have hki : k - i = (k - (i + 1)) + 1 := by omega
      rw [hki]
      simpa using hj'
    by_cases hsite : pyLower (j.site.getD []) = lit "linkedin"
    · cases hdesc : ((j.description.getD []).isEmpty
          || (pyStrip (j.description.getD [])).isEmpty) with
      | false =>
        rw [selectJobsFrom, if_pos hsite] at h
        rw [hdesc] at h
        simp only [Bool.false_eq_true, if_false] at h
        exact step h
      | true =>
        rw [selectJobsFrom, if_pos hsite] at h
        rw [hdesc] at h
        simp only [if_true] at h
        cases hid : extract_linkedin_job_id (jobUrlOf j) with
        | none =>
          rw [hid] at h
          exact step h
        | some id' =>
          rw [hid] at h
          rcases List.mem_cons.mp h with heq | hmem
          · injection heq with hk hid2
            refine ⟨by omega, j, ?_, targeted_true hsite hdesc hid, ?_⟩
            · have hz : k - i = 0 := by omega
              rw [hz]; simp
            · simp [jobIdOf, hid, hid2]
          · exact step hmem
    · rw [selectJobsFrom, if_neg hsite] at h
      exact step h

lemma setDescription_length :
    ∀ (js : List Job) (i : Nat) (d : Str),
      (setDescription js i d).length = js.length := by
  intro js
  induction js with
  | nil => intro i d; rfl
  | cons j rest ih =>
    intro i d
    cases i with
    | zero => simp [setDescription]
    | succ i' => simp [setDescription, ih]

lemma applySel_length (f : Str → Option Str) :
    ∀ (sel : List (Nat × Str)) (js : List Job),
      (applySel f sel js).length = js.length := by
  intro sel
  induction sel with
  | nil => intro js; rfl
  | cons p rest ih =>
    intro js
    obtain ⟨i, id⟩ := p
    simp only [applySel]
    rw [ih]
    cases f id with
    | none => rfl
    | some d =>
      by_cases hd : d = []
      · simp [hd]
      · simp [hd, setDescription_length]

/-- A record failing the targeting conditions is completely unchanged
by the batch pass. -/
lemma run_untouched (jobs : List Job) (cb : Option (Nat → Nat → Bool))
    (fetcher : Str → Option Str) (k : Nat) (j : Job)
    (hk : jobs.get? k = some j) (htj : targeted j = false) :
    (fetch_descriptions_for_jobs jobs cb fetcher).jobs.get? k = jobs.get? k := by
  rw [run_jobs]
  apply applySel_get?_not_mem
  intro id hmem
  obtain ⟨hik, j', hj', htj', _⟩ := selectJobsFrom_mem jobs 0 k id hmem
  rw [Nat.sub_zero, hk] at hj'
  injection hj' with hj'
  rw [hj'] at htj
  rw [htj] at htj'
  exact absurd htj' (by simp)

/-! ### Lemmas on splitting, joining and stripping -/

lemma splitP_ne_nil (p : Char → Bool) : ∀ s : Str, splitP p s ≠ [] := by
  intro s
  induction s with
  | nil => simp [splitP]
  | cons c rest ih =>
    by_cases h : p c = true
    · simp [splitP, h]
    · cases hs : splitP p rest with
      | nil => exact absurd hs ih
      | cons t ts => simp [splitP, h, hs]

lemma splitP_no_sep (p : Char → Bool) :
    ∀ s : Str, (∀ c ∈ s, p c = false) → splitP p s = [s] := by
  intro s
  induction s with
  | nil => intro _; rfl
  | cons c rest ih =>
    intro h
    have hc : p c = false := h c (List.mem_cons_self c rest)
    have hrest := ih (fun c' hc' => h c' (List.mem_cons_of_mem _ hc'))
    simp [splitP, hc, hrest]

lemma splitP_cons_sep (p : Char → Bool) (sep : Char) (h : p sep = true)
    (rest : Str) : splitP p (sep :: rest) = [] :: splitP p rest := by
  simp [splitP, h]

lemma splitP_append_no_sep (p : Char → Bool) :
    ∀ (l rest : Str) (t : Str) (ts : List Str), (∀ c ∈ l, p c = false) →
      splitP p rest = t :: ts → splitP p (l ++ rest) = (l ++ t) :: ts := by
  intro l
  induction l with
  | nil => intro rest t ts _ h; simpa using h
  | cons c l' ih =>
    intro rest t ts h hrest
    have hc : p c = false := h c (List.mem_cons_self c l')
    have h' := ih rest t ts (fun c' hc' => h c' (List.mem_cons_of_mem _ hc')) hrest
    simp [splitP, hc, h']

lemma splitP_joinSep (p : Char → Bool) (sep : Char) (hsep : p sep = true) :
    ∀ ls : List Str, ls ≠ [] → (∀ l ∈ ls, ∀ c ∈ l, p c = false) →
      splitP p (joinSep sep ls) = ls := by
  intro ls
  induction ls with
  | nil => intro h _; exact absurd rfl h
  | cons l tail ih =>
    intro _ h
    cases tail with
    | nil =>
      exact splitP_no_sep p l (h l (List.mem_cons_self l []))
    | cons l2 t2 =>
      have hrec := ih (by simp)
        (fun l' hl' => h l' (List.mem_cons_of_mem _ hl'))
      have hstep := splitP_cons_sep p sep hsep (joinSep sep (l2 :: t2))
      rw [hrec] at hstep
      have := splitP_append_no_sep p l (sep :: joinSep sep (l2 :: t2)) []
        (l2 :: t2) (h l (List.mem_cons_self l _)) hstep
      simpa [joinSep] using this

lemma splitP_mem_no_sep (p : Char → Bool) :
    ∀ (s : Str) (t : Str), t ∈ splitP p s → ∀ c ∈ t, p c = false := by
  intro s
  induction s with
  | nil =>
    intro t ht c hc
    simp [splitP] at ht
    subst ht
    simp at hc
  | cons a rest ih =>
    intro t ht c hc
    by_cases ha : p a = true
    · rw [splitP_cons_sep p a ha] at ht
      rcases List.mem_cons.mp ht with h | h
      · subst h; simp at hc
      · exact ih t h c hc
    · cases hs : splitP p rest with
      | nil => exact absurd hs (splitP_ne_nil p rest)
      | cons t' ts =>
        have : splitP p (a :: rest) = (a :: t') :: ts := by
          simp [splitP, ha, hs]
        rw [this] at ht
        rcases List.mem_cons.mp ht with h | h
        · subst h
          rcases List.mem_cons.mp hc with h' | h'
          · subst h'
            exact eq_false_of_ne_true ha
          · exact ih t' (hs ▸ List.mem_cons_self t' ts) c h'
        · exact ih t (hs ▸ List.mem_cons_of_mem t' h) c hc

lemma mem_joinSep (sep : Char) :
    ∀ (ls : List Str) (c : Char), c ∈ joinSep sep ls →
      c = sep ∨ ∃ l ∈ ls, c ∈ l := by
  intro ls
  induction ls with
  | nil => intro c h; simp [joinSep] at h
  | cons l tail ih =>
    intro c h
    cases tail with
    | nil => exact Or.inr ⟨l, List.mem_cons_self l [], h⟩
    | cons l2 t2 =>
      rw [show joinSep sep (l :: l2 :: t2) = l ++ sep :: joinSep sep (l2 :: t2)
        from rfl] at h
      rcases List.mem_append.mp h with h' | h'
      · exact Or.inr ⟨l, List.mem_cons_self l _, h'⟩
      · rcases List.mem_cons.mp h' with h'' | h''
        · exact Or.inl h''
        · rcases ih c h'' with h3 | ⟨l', hl', hc'⟩
          · exact Or.inl h3
          · exact Or.inr ⟨l', List.mem_cons_of_mem _ hl', hc'⟩

lemma joinSep_cons_ne_nil (sep : Char) (l2 : Str) (t2 : List Str)
    (h : l2 ≠ []) : joinSep sep (l2 :: t2) ≠ [] := by
  cases t2 with
  | nil => exact h
  | cons l3 t3 => simp [joinSep]

lemma head?_joinSep_eq (sep : Char) :
    ∀ (ls : List Str) (a : Char), (∀ l ∈ ls, l ≠ []) →
      (joinSep sep ls).head? = some a → ∃ l ∈ ls, l.head? = some a := by
  intro ls
  induction ls with
  | nil => intro a _ h; simp [joinSep] at h
  | cons l tail _ =>
    intro a hne h
    cases tail with
    | nil => exact ⟨l, List.mem_cons_self l [], h⟩
    | cons l2 t2 =>
      rw [show joinSep sep (l :: l2 :: t2) = l ++ sep :: joinSep sep (l2 :: t2)
          from rfl,
        List.head?_append_of_ne_nil l (hne l (List.mem_cons_self l _))] at h
      exact ⟨l, List.mem_cons_self l _, h⟩

lemma getLast?_joinSep_eq (sep : Char) :
    ∀ (ls : List Str) (a : Char), (∀ l ∈ ls, l ≠ []) →
      (joinSep sep ls).getLast? = some a → ∃ l ∈ ls, l.getLast? = some a := by
  intro ls
  induction ls with
  | nil => intro a _ h; simp [joinSep] at h
  | cons l tail ih =>
    intro a hne h
    cases tail with
    | nil => exact ⟨l, List.mem_cons_self l [], h⟩
    | cons l2 t2 =>
      rw [show joinSep sep (l :: l2 :: t2) = l ++ sep :: joinSep sep (l2 :: t2)
          from rfl,
        List.getLast?_append_cons] at h
      have hjoin : joinSep sep (l2 :: t2) ≠ [] :=
        joinSep_cons_ne_nil sep l2 t2 (hne l2 (by simp))
      rw [show (sep :: joinSep sep (l2 :: t2)) = [sep] ++ joinSep sep (l2 :: t2)
          from rfl,
        List.getLast?_append_of_ne_nil [sep] hjoin] at h
      obtain ⟨l', hl', ha⟩ := ih a (fun l' hl' => hne l' (List.mem_cons_of_mem _ hl')) h
      exact ⟨l', List.mem_cons_of_mem _ hl', ha⟩

lemma dropWhile_eq_self_of_head (q : Char → Bool) (s : Str)
    (h : ∀ a, s.head? = some a → q a = false) : s.dropWhile q = s := by
  cases s with
  | nil => rfl
  | cons a t =>
    have := h a rfl
    simp [List.dropWhile_cons, this]

lemma head?_reverse_eq_getLast? : ∀ s : Str, s.reverse.head? = s.getLast? := by
  intro s
  induction s with
  | nil => rfl
  | cons a t ih =>
    cases ht : t with
    | nil => simp
    | cons b t' =>
      rw [List.reverse_cons,
        List.head?_append_of_ne_nil _ (by simp [ht]),
        ← ht, ih,
        show a :: t = [a] ++ t from rfl,
        List.getLast?_append_of_ne_nil [a] (by simp [ht])]

lemma pyStrip_eq_self (s : Str)
    (hh : ∀ a, s.head? = some a → a.isWhitespace = false)
    (hl : ∀ a, s.getLast? = some a → a.isWhitespace = false) :
    pyStrip s = s := by
  unfold pyStrip
  rw [dropWhile_eq_self_of_head _ _ hh]
  rw [dropWhile_eq_self_of_head _ _
    (fun a ha => hl a ((head?_reverse_eq_getLast? s) ▸ ha))]
  exact List.reverse_reverse s

/-! ### Lemmas on the whitespace normalisation -/

lemma pyWords_mem_ne_nil {l t : Str} (h : t ∈ pyWords l) : t ≠ [] := by
  have := (List.mem_filter.mp h).2
  simpa using this

lemma pyWords_mem_no_ws {l t : Str} (h : t ∈ pyWords l) :
    ∀ c ∈ t, c.isWhitespace = false :=
  splitP_mem_no_sep Char.isWhitespace l t (List.mem_filter.mp h).1

lemma pyWords_joinSep (ts : List Str) (h1 : ∀ t ∈ ts, t ≠ [])
    (h2 : ∀ t ∈ ts, ∀ c ∈ t, c.isWhitespace = false) :
    pyWords (joinSep ' ' ts) = ts := by
  cases ts with
  | nil => rfl
  | cons t ts' =>
    unfold pyWords
    rw [splitP_joinSep Char.isWhitespace ' ' (by decide) (t :: ts') (by simp) h2]
    apply List.filter_eq_self.mpr
    intro a ha
    simpa using h1 a ha

lemma collapseLine_idem (l : Str) : collapseLine (collapseLine l) = collapseLine l := by
  show joinSep ' ' (pyWords (collapseLine l)) = collapseLine l
  unfold collapseLine
  rw [pyWords_joinSep (pyWords l) (fun t ht => pyWords_mem_ne_nil ht)
    (fun t ht => pyWords_mem_no_ws ht)]

lemma collapseLine_no_newline (l : Str) :
    ∀ c ∈ collapseLine l, (c = '\n') = False := by
  intro c hc
  rcases mem_joinSep ' ' (pyWords l) c hc with h | ⟨t, ht, hct⟩
  · subst h; simp
  · have := pyWords_mem_no_ws ht c hct
    simp only [eq_iff_iff, iff_false]
    intro hcn
    rw [hcn] at this
    simp [Char.isWhitespace] at this

lemma collapseLine_head_not_ws (l : Str) :
    ∀ a, (collapseLine l).head? = some a → a.isWhitespace = false := by
  intro a ha
  obtain ⟨t, ht, hat⟩ := head?_joinSep_eq ' ' (pyWords l) a
    (fun t ht => pyWords_mem_ne_nil ht) ha
  exact pyWords_mem_no_ws ht a (List.mem_of_mem_head? (by simp [hat]))

lemma collapseLine_getLast_not_ws (l : Str) :
    ∀ a, (collapseLine l).getLast? = some a → a.isWhitespace = false := by
  intro a ha
  obtain ⟨t, ht, hat⟩ := getLast?_joinSep_eq ' ' (pyWords l) a
    (fun t ht => pyWords_mem_ne_nil ht) ha
  exact pyWords_mem_no_ws ht a (List.mem_of_mem_getLast? (by simp [hat]))

/-- The list of surviving lines of `normalizeText` (lines 112–114):
split on newlines, collapse, drop empties. -/
def survivingLines (t : Str) : List Str :=
  ((splitP (· = '\n') t).map collapseLine).filter (· ≠ [])

lemma survivingLines_mem_ne_nil {t l : Str} (h : l ∈ survivingLines t) :
    l ≠ [] := by
  have := (List.mem_filter.mp h).2
  simpa using this

lemma survivingLines_mem_collapse {t l : Str} (h : l ∈ survivingLines t) :
    ∃ x, l = collapseLine x := by
  obtain ⟨x, _, hx⟩ := List.mem_map.mp (List.mem_filter.mp h).1
  exact ⟨x, hx.symm⟩

lemma pyStrip_joinSep_newline (L : List Str)
    (h1 : ∀ l ∈ L, l ≠ [])
    (h2 : ∀ l ∈ L, ∀ a, l.head? = some a → a.isWhitespace = false)
    (h3 : ∀ l ∈ L, ∀ a, l.getLast? = some a → a.isWhitespace = false) :
    pyStrip (joinSep '\n' L) = joinSep '\n' L := by
  apply pyStrip_eq_self
  · intro a ha
    obtain ⟨l, hl, hal⟩ := head?_joinSep_eq '\n' L a h1 ha
    exact h2 l hl a hal
  · intro a ha
    obtain ⟨l, hl, hal⟩ := getLast?_joinSep_eq '\n' L a h1 ha
    exact h3 l hl a hal

lemma normalizeText_eq_joinSep (t : Str) :
    normalizeText t = joinSep '\n' (survivingLines t) := by
  unfold normalizeText survivingLines
  apply pyStrip_joinSep_newline
  · intro l hl
    have := (List.mem_filter.mp hl).2
    simpa using this
  · intro l hl a ha
    obtain ⟨x, _, hx⟩ := List.mem_map.mp (List.mem_filter.mp hl).1
    exact collapseLine_head_not_ws x a (hx ▸ ha)
  · intro l hl a ha
    obtain ⟨x, _, hx⟩ := List.mem_map.mp (List.mem_filter.mp hl).1
    exact collapseLine_getLast_not_ws x a (hx ▸ ha)

lemma normalizeText_joinSep_fixed (L : List Str)
    (h1 : ∀ l ∈ L, l ≠ [])
    (h4 : ∀ l ∈ L, ∀ c ∈ l, (c = '\n') = False)
    (h5 : ∀ l ∈ L, collapseLine l = l)
    (h2 : ∀ l ∈ L, ∀ a, l.head? = some a → a.isWhitespace = false)
    (h3 : ∀ l ∈ L, ∀ a, l.getLast? = some a → a.isWhitespace = false) :
    normalizeText (joinSep '\n' L) = joinSep '\n' L := by
  cases L with
  | nil => rfl
  | cons l0 L' =>
    unfold normalizeText
    rw [splitP_joinSep (fun c => c = '\n') '\n' (by simp) (l0 :: L') (by simp)
      (fun l hl c hc => by simp [h4 l hl c hc])]
    have hmap : List.map collapseLine (l0 :: L') = l0 :: L' := by
      have hm := List.map_congr_left h5
      simpa using hm
    rw [hmap]
    rw [List.filter_eq_self.mpr (fun l hl => by simpa using h1 l hl)]
    exact pyStrip_joinSep_newline (l0 :: L') h1 h2 h3

lemma normalizeText_idem (t : Str) :
    normalizeText (normalizeText t) = normalizeText t := by
  rw [normalizeText_eq_joinSep t]
  apply normalizeText_joinSep_fixed
  · intro l hl
    exact survivingLines_mem_ne_nil hl
  · intro l hl c hc
    obtain ⟨x, hx⟩ := survivingLines_mem_collapse hl
    exact collapseLine_no_newline x c (hx ▸ hc)
  · intro l hl
    obtain ⟨x, hx⟩ := survivingLines_mem_collapse hl
    rw [hx]
    exact collapseLine_idem x
  · intro l hl a ha
    obtain ⟨x, hx⟩ := survivingLines_mem_collapse hl
    exact collapseLine_head_not_ws x a (hx ▸ ha)
  · intro l hl a ha
    obtain ⟨x, hx⟩ := survivingLines_mem_collapse hl
    exact collapseLine_getLast_not_ws x a (hx ▸ ha)

lemma pyStrip_normalizeText (t : Str) :
    pyStrip (normalizeText t) = normalizeText t := by
  rw [normalizeText_eq_joinSep t]
  apply pyStrip_joinSep_newline
  · intro l hl
    exact survivingLines_mem_ne_nil hl
  · intro l hl a ha
    obtain ⟨x, hx⟩ := survivingLines_mem_collapse hl
    exact collapseLine_head_not_ws x a (hx ▸ ha)
  · intro l hl a ha
    obtain ⟨x, hx⟩ := survivingLines_mem_collapse hl
    exact collapseLine_getLast_not_ws x a (hx ▸ ha)

lemma clean_html_text_text_node (u : Str) :
    clean_html_text [HNode.text u] = normalizeText u := by
  show normalizeText (nodesText [HNode.text u]) = normalizeText u
  simp [nodesText, nodeText]

/-! ## Claims -/

/-- C1: the batch pass selects for enrichment exactly the records that
are `targeted` — `site` equal to `"linkedin"` case-insensitively,
existing description empty or whitespace-only, and a valid identifier
extracted from the URL field — invoking the fetcher once per selected
record, in original relative order (first conjunct), and leaving every
record that fails any of the three conditions untouched (second
conjunct). -/
theorem claim_C1 (jobs : List Job) (cb : Option (Nat → Nat → Bool))
    (fetcher : Str → Option Str) :
    (fetch_descriptions_for_jobs jobs cb fetcher).fetchCalls
        = (jobs.filter targeted).filterMap jobIdOf
    ∧ (∀ k j, jobs.get? k = some j → targeted j = false →
        (fetch_descriptions_for_jobs jobs cb fetcher).jobs.get? k
          = jobs.get? k) := by
  constructor
  · rw [run_fetchCalls, selectJobsFrom_map_snd]
  · exact fun k j hk htj => run_untouched jobs cb fetcher k j hk htj

/-- The three records of the spec's batch-selection example: A is a
LinkedIn posting with an empty description and a valid URL, B is a
LinkedIn posting that already has a description, C is from another
site. -/
def jobA : Job :=
  { site := some (lit "linkedin"), description := some [],
    link := some (lit "https://www.linkedin.com/jobs/view/1234567890/") }

/-- Record B of the selection example: already has a description. -/
def jobB : Job :=
  { site := some (lit "linkedin"), description := some (lit "Already here"),
    link := some (lit "https://www.linkedin.com/jobs/view/2222222222/") }

/-- Record C of the selection example: from another site. -/
def jobC : Job :=
  { site := some (lit "indeed"), description := some [],
    link := some (lit "https://www.linkedin.com/jobs/view/3333333333/") }

/-- Witness for C1 on the spec's three-record example: only record A's
identifier is fetched, and record C is untouched. -/
theorem claim_C1_witness :
    (fetch_descriptions_for_jobs [jobA, jobB, jobC] none fun _ => none).fetchCalls
        = [lit "1234567890"]
    ∧ (fetch_descriptions_for_jobs [jobA, jobB, jobC] none
        fun _ => none).jobs.get? 2 = some jobC :=
  ⟨((claim_C1 [jobA, jobB, jobC] none fun _ => none).1).trans (by decide),
   (((claim_C1 [jobA, jobB, jobC] none fun _ => none).2) 2 jobC (by decide)
      (by decide)).trans (by decide)⟩

/-- C2: `extract_linkedin_job_id` tries the four patterns
`/jobs/view/<digits>`, `/jobs/<digits>`, `currentJobId=<digits>`,
`jobId=<digits>` in exactly this order and returns the digit capture of
the first pattern that matches; in particular a URL matching both
pattern 1 and pattern 3 returns pattern 1's capture (second conjunct),
and for an empty URL or one matching no pattern it returns no result
(first and last conjuncts). -/
theorem claim_C2 (url m : Str) :
    extract_linkedin_job_id [] = none ∧
    (searchLit (lit "/jobs/view/") url = some m →
      extract_linkedin_job_id url = some m) ∧
    (searchLit (lit "/jobs/view/") url = none →
      searchLit (lit "/jobs/") url = some m →
      extract_linkedin_job_id url = some m) ∧
    (searchLit (lit "/jobs/view/") url = none →
      searchLit (lit "/jobs/") url = none →
      searchLit (lit "currentJobId=") url = some m →
      extract_linkedin_job_id url = some m) ∧
    (searchLit (lit "/jobs/view/") url = none →
      searchLit (lit "/jobs/") url = none →
      searchLit (lit "currentJobId=") url = none →
      searchLit (lit "jobId=") url = some m →
      extract_linkedin_job_id url = some m) ∧
    (searchLit (lit "/jobs/view/") url = none →
      searchLit (lit "/jobs/") url = none →
      searchLit (lit "currentJobId=") url = none →
      searchLit (lit "jobId=") url = none →
      extract_linkedin_job_id url = none) := by
  refine ⟨by decide, ?_, ?_, ?_, ?_, ?_⟩
  · intro h1
    cases url with
    | nil => rw [searchLit_nil _ (by decide)] at h1; exact absurd h1 (by simp)
    | cons c rest =>
      simp [extract_linkedin_job_id, linkedinPatterns, tryPatterns, h1]
  · intro h1 h2
    cases url with
    | nil => rw [searchLit_nil _ (by decide)] at h2; exact absurd h2 (by simp)
    | cons c rest =>
      simp [extract_linkedin_job_id, linkedinPatterns, tryPatterns, h1, h2]
  · intro h1 h2 h3
    cases url with
    | nil => rw [searchLit_nil _ (by decide)] at h3; exact absurd h3 (by simp)
    | cons c rest =>
      simp [extract_linkedin_job_id, linkedinPatterns, tryPatterns, h1, h2, h3]
  · intro h1 h2 h3 h4
    cases url with
    | nil => rw [searchLit_nil _ (by decide)] at h4; exact absurd h4 (by simp)
    | cons c rest =>
      simp [extract_linkedin_job_id, linkedinPatterns, tryPatterns, h1, h2, h3, h4]
  · intro h1 h2 h3 h4
    cases url with
    | nil => decide
    | cons c rest =>
      simp [extract_linkedin_job_id, linkedinPatterns, tryPatterns, h1, h2, h3, h4]

/-- Witness for C2 at a URL matching both pattern 1 and pattern 3:
pattern 1's capture wins. -/
theorem claim_C2_witness :
    extract_linkedin_job_id
        (lit "https://x.com/jobs/view/111?currentJobId=222") = some (lit "111") :=
  (claim_C2 (lit "https://x.com/jobs/view/111?currentJobId=222") (lit "111")).2.1
    (by decide)

/-- A concrete response body holding a primary description container,
used to exhibit the behaviour of the fetch on a 201 status. -/
def demoDiv : HNode := .elem (lit "div") [primaryDescClass] [.text (lit "Great job")]

/-- The body list containing `demoDiv`. -/
def demoBody : List HNode := [demoDiv]

/-- C3 (counterexample): the claim says every 2xx status is parsed for
the description container, but the code (line 151) returns no result
for any status other than exactly 200: at status 201 with a body that
does contain the primary container, the fetch does not return the
container's text. -/
theorem claim_C3_counterexample :
    ¬ (200 ≤ 201 ∧ 201 < 300 →
        findClassList primaryDescClass demoBody = some demoDiv →
        (fetch_linkedin_description (lit "123") (.response 201 demoBody)).fst
          = some (clean_html_text [demoDiv])) := by
  intro h
  exact absurd (h (by decide) rfl) (by decide)

/-- C3 (amended): for every response status other than 404 and 429, if
the status is not exactly 200 (including 2xx statuses other than 200)
the fetch logs a warning and returns no result; if the status is
exactly 200 it parses the body and returns the normalized text of the
primary description container when one is present. -/
theorem claim_C3_amended (job_id : Str) (status : Nat) (body : List HNode)
    (n : HNode) (hid : job_id ≠ []) (h404 : status ≠ 404) (h429 : status ≠ 429) :
    (status ≠ 200 →
      fetch_linkedin_description job_id (.response status body)
        = (none, [.warning])) ∧
    (status = 200 → findClassList primaryDescClass body = some n →
      (fetch_linkedin_description job_id (.response status body)).fst
        = some (clean_html_text [n])) := by
  constructor
  · intro h200
    simp [fetch_linkedin_description, hid, h404, h429, h200]
  · intro h200 hfind
    subst h200
    simp [fetch_linkedin_description, hid, hfind]

/-- Witness for C3 (amended) at status 500: warning and no result. -/
theorem claim_C3_witness :
    fetch_linkedin_description (lit "123") (.response 500 [])
      = (none, [LogLevel.warning]) :=
  (claim_C3_amended (lit "123") 500 [] (HNode.text []) (by decide) (by decide)
    (by decide)).1 (by decide)

/-- C4: the fetch never propagates an exception — every timeout,
transport failure or unexpected exception outcome, and the 404 and 429
statuses, all return no result (the model's totality over `HttpResult`
reflects the `try/except` of lines 136–187); 404 and 429 agree on the
returned value. -/
theorem claim_C4 (job_id : Str) (body : List HNode) :
    (fetch_linkedin_description job_id .timeoutExn).fst = none ∧
    (fetch_linkedin_description job_id .requestExn).fst = none ∧
    (fetch_linkedin_description job_id .otherExn).fst = none ∧
    (fetch_linkedin_description job_id (.response 404 body)).fst = none ∧
    (fetch_linkedin_description job_id (.response 429 body)).fst = none ∧
    (fetch_linkedin_description job_id (.response 404 body)).fst
      = (fetch_linkedin_description job_id (.response 429 body)).fst := by
  by_cases h : job_id = [] <;> simp [fetch_linkedin_description, h]

/-- C5: the batch pass can change at most the `description` field of a
record — every other field of every record survives (first conjunct),
records failing the targeting conditions are completely unchanged
(second conjunct), the collection keeps its length (third conjunct),
and when the fetcher returns no result for every item the returned
collection is unchanged in content with the failed count equal to the
targeted count (fourth conjunct).  The Python function returns the very
list object it mutates; the model states the content of that list. -/
theorem claim_C5 (jobs : List Job) (cb : Option (Nat → Nat → Bool))
    (fetcher : Str → Option Str) :
    (∀ k j, jobs.get? k = some j →
      ∃ j', (fetch_descriptions_for_jobs jobs cb fetcher).jobs.get? k = some j'
        ∧ SameFrame j j')
    ∧ (∀ k j, jobs.get? k = some j → targeted j = false →
        (fetch_descriptions_for_jobs jobs cb fetcher).jobs.get? k = jobs.get? k)
    ∧ (fetch_descriptions_for_jobs jobs cb fetcher).jobs.length = jobs.length
    ∧ (fetcher = (fun _ => none) →
        (fetch_descriptions_for_jobs jobs cb fetcher).jobs = jobs
        ∧ (fetch_descriptions_for_jobs jobs cb fetcher).failedCount
            = (jobs.filter targeted).length
        ∧ (fetch_descriptions_for_jobs jobs cb fetcher).fetchedCount = 0) := by
  refine ⟨?_, ?_, ?_, ?_⟩
  · intro k j hk
    rw [run_jobs]
    exact applySel_frame fetcher _ jobs k j hk
  · exact fun k j hk htj => run_untouched jobs cb fetcher k j hk htj
  · rw [run_jobs]
    exact applySel_length fetcher _ jobs
  · intro hf
    subst hf
    refine ⟨?_, ?_, ?_⟩
    · rw [run_jobs]
      exact applySel_allfail _ (fun id => Or.inl rfl) _ _
    · rw [run_failedCount]
      have hc : countFailed (fun _ => none) (selectJobsFrom 0 jobs)
          = (selectJobsFrom 0 jobs).length := by
        unfold countFailed
        apply List.countP_eq_length.mpr
        intro a _
        rfl
      rw [hc, selectJobsFrom_length]
    · rw [run_fetchedCount]
      unfold countFetched
      apply List.countP_eq_zero.mpr
      intro a _
      simp

/-- Witness for C5 with the all-failing fetcher on the three-record
example: the collection comes back unchanged and the failed count is
the targeted count. -/
theorem claim_C5_witness :
    (fetch_descriptions_for_jobs [jobA, jobB, jobC] none fun _ => none).jobs
        = [jobA, jobB, jobC]
    ∧ (fetch_descriptions_for_jobs [jobA, jobB, jobC] none
        fun _ => none).failedCount = 1 :=
  ⟨((claim_C5 [jobA, jobB, jobC] none fun _ => none).2.2.2 rfl).1,
   (((claim_C5 [jobA, jobB, jobC] none fun _ => none).2.2.2 rfl).2.1).trans
     (by decide)⟩

/-- C6 (counterexample): the claim says normalizing tag-free plain text
returns the same text trimmed, but `clean_html_text` also collapses
whitespace runs inside lines: on the tag-free input `"a  b"` (two
spaces) it returns `"a b"`, not `"a  b"` trimmed. -/
theorem claim_C6_counterexample :
    ¬ (clean_html_text [HNode.text (lit "a  b")] = pyStrip (lit "a  b")) := by
  decide

/-- C6 (amended): `clean_html_text` on tag-free plain text returns the
text with each line's whitespace runs collapsed to single spaces, blank
lines dropped, and the result trimmed — so it is idempotent on tag-free
input (first conjunct) and its output is already trimmed (second
conjunct); the output equals the input trimmed exactly when the input's
whitespace is already in this collapsed form. -/
theorem claim_C6_amended (s : Str) :
    clean_html_text [HNode.text (clean_html_text [HNode.text s])]
        = clean_html_text [HNode.text s]
    ∧ pyStrip (clean_html_text [HNode.text s])
        = clean_html_text [HNode.text s] := by
  simp only [clean_html_text_text_node]
  exact ⟨normalizeText_idem s, pyStrip_normalizeText s⟩

/-- C7: the pacing delay is invoked exactly `n - 1` times for `n`
targeted items (the loop sleeps after every item except the last, lines
247–248), and when no item is targeted the input is returned unchanged
with no fetch, no callback invocation and no delay at all. -/
theorem claim_C7 (jobs : List Job) (cb : Option (Nat → Nat → Bool))
    (fetcher : Str → Option Str) :
    (fetch_descriptions_for_jobs jobs cb fetcher).sleepCount
        = (jobs.filter targeted).length - 1
    ∧ (selectJobsFrom 0 jobs = [] →
        fetch_descriptions_for_jobs jobs cb fetcher
          = { jobs := jobs, fetchCalls := [], progressCalls := [],
              sleepCount := 0, fetchedCount := 0, failedCount := 0,
              log := [LogLevel.info] }) := by
  constructor
  · rw [run_sleepCount, selectJobsFrom_length]
  · intro h
    unfold fetch_descriptions_for_jobs
    rw [h]

/-- Witness for C7 on a list with no targeted record: the input is
returned unchanged and the delay count is zero. -/
theorem claim_C7_witness :
    fetch_descriptions_for_jobs [jobB, jobC] none (fun _ => none)
      = { jobs := [jobB, jobC], fetchCalls := [], progressCalls := [],
          sleepCount := 0, fetchedCount := 0, failedCount := 0,
          log := [LogLevel.info] } :=
  (claim_C7 [jobB, jobC] none (fun _ => none)).2 (by decide)

/-- C8: a provided progress callback is invoked once per targeted item
with the 1-based position and the total targeted count (first
conjunct); whether the callback raises has no effect on which items are
fetched, on the records, or on any counter — a raising callback differs
from no callback only in the progress/log trace (conjuncts 2–6); and a
callback that always raises with an always-failing fetcher produces one
debug log record per targeted item between the two info summaries,
i.e. the exception is caught and logged, never aborting the batch
(last conjunct). -/
theorem claim_C8 (jobs : List Job) (raises : Nat → Nat → Bool)
    (fetcher : Str → Option Str) :
    (fetch_descriptions_for_jobs jobs (some raises) fetcher).progressCalls
        = (List.range (jobs.filter targeted).length).map
            (fun k => (k + 1, (jobs.filter targeted).length))
    ∧ (fetch_descriptions_for_jobs jobs (some raises) fetcher).jobs
        = (fetch_descriptions_for_jobs jobs none fetcher).jobs
    ∧ (fetch_descriptions_for_jobs jobs (some raises) fetcher).fetchCalls
        = (fetch_descriptions_for_jobs jobs none fetcher).fetchCalls
    ∧ (fetch_descriptions_for_jobs jobs (some raises) fetcher).fetchedCount
        = (fetch_descriptions_for_jobs jobs none fetcher).fetchedCount
    ∧ (fetch_descriptions_for_jobs jobs (some raises) fetcher).failedCount
        = (fetch_descriptions_for_jobs jobs none fetcher).failedCount
    ∧ (fetch_descriptions_for_jobs jobs (some raises) fetcher).sleepCount
        = (fetch_descriptions_for_jobs jobs none fetcher).sleepCount
    ∧ (selectJobsFrom 0 jobs ≠ [] →
        (fetch_descriptions_for_jobs jobs (some fun _ _ => true)
            (fun _ => none)).log
          = LogLevel.info ::
              (List.replicate (jobs.filter targeted).length LogLevel.debug
                ++ [LogLevel.info])) := by
  refine ⟨?_, ?_, ?_, ?_, ?_, ?_, ?_⟩
  · rw [run_progressCalls_some, selectJobsFrom_length]
  · rw [run_jobs, run_jobs]
  · rw [run_fetchCalls, run_fetchCalls]
  · rw [run_fetchedCount, run_fetchedCount]
  · rw [run_failedCount, run_failedCount]
  · rw [run_sleepCount, run_sleepCount]
  · intro h
    rw [run_log_raise_fail jobs h, selectJobsFrom_length]

/-- Witness for C8 on a one-targeted-record batch with an
always-raising callback and an always-failing fetcher: the callback is
called once with (1, 1), the raise is logged as a single debug record,
and the item is still fetched. -/
theorem claim_C8_witness :
    (fetch_descriptions_for_jobs [jobA] (some fun _ _ => true)
        (fun _ => none)).log
      = [LogLevel.info, LogLevel.debug, LogLevel.info] :=
  ((claim_C8 [jobA] (fun _ _ => true) (fun _ => none)).2.2.2.2.2.2
      (by decide)).trans (by decide)

/-- C9: the `link` key takes precedence over `job_url` (line 214): the
identifier is extracted from `link`'s value whenever it is non-empty,
and only when `link` is missing or empty is `job_url`'s value used. -/
theorem claim_C9 (j : Job) :
    (j.link.getD [] ≠ [] →
      jobIdOf j = extract_linkedin_job_id (j.link.getD []))
    ∧ (j.link.getD [] = [] →
      jobIdOf j = extract_linkedin_job_id (j.job_url.getD [])) := by
  constructor
  · intro h
    simp [jobIdOf, jobUrlOf, h]
  · intro h
    simp [jobIdOf, jobUrlOf, h]

/-- A record carrying different identifiers under `link` and
`job_url`. -/
def jobBoth : Job :=
  { site := some (lit "linkedin"),
    link := some (lit "https://x.com/jobs/view/111"),
    job_url := some (lit "https://x.com/jobs/view/222") }

/-- Witness for C9: with both URL keys present, the identifier comes
from `link`. -/
theorem claim_C9_witness : jobIdOf jobBoth = some (lit "111") :=
  ((claim_C9 jobBoth).1 (by decide)).trans (by decide)

/-- C10: a fetcher result that is the empty string is treated as a
failure (line 239's truthiness test): no record is overwritten, the
fetched counter stays zero and the failed counter counts every
targeted record. -/
theorem claim_C10 (jobs : List Job) (cb : Option (Nat → Nat → Bool)) :
    (fetch_descriptions_for_jobs jobs cb (fun _ => some [])).jobs = jobs
    ∧ (fetch_descriptions_for_jobs jobs cb (fun _ => some [])).fetchedCount = 0
    ∧ (fetch_descriptions_for_jobs jobs cb (fun _ => some [])).failedCount
        = (jobs.filter targeted).length := by
  refine ⟨?_, ?_, ?_⟩
  · rw [run_jobs]
    exact applySel_allfail _ (fun id => Or.inr rfl) _ _
  · rw [run_fetchedCount]
    unfold countFetched
    apply List.countP_eq_zero.mpr
    intro a _
    simp
  · rw [run_failedCount]
    have hc : countFailed (fun _ => some []) (selectJobsFrom 0 jobs)
        = (selectJobsFrom 0 jobs).length := by
      unfold countFailed
      apply List.countP_eq_length.mpr
      intro a _
      simp
    rw [hc, selectJobsFrom_length]

end LinkedinScraper
